import Mathlib

set_option maxRecDepth 16384

/-!
Shallow embedding of the KanjiReader grade-aware text pipeline
(`src/reader/core.py`) and proofs about its claimed properties.

Modelling conventions:
* Python strings are `List Char`.
* Image byte payloads are `List Nat`.
* The external collaborators (fugashi/MeCab tokenizer, pykakasi romanizer,
  jaconv katakana→hiragana table, unicodedata classification, PIL image
  halving, base64 encoding) are fields of an explicit context `Ctx`; the
  pipeline functions are translated faithfully from the Python source on
  top of that context.
* A MeCab token is its surface plus the optional kana reading that the
  Python code reads from `tok.feature[9]` (absent or empty → fallback);
  `some []` models an empty reading string (falsy in Python).
-/

namespace KanjiReader

/-- One result item of `pykakasi.kakasi().convert`: the fields the source
reads are `item["hira"]` and `item["hepburn"]`. -/
structure KItem where
  hira : List Char
  hepburn : List Char
  deriving Repr, DecidableEq

/-- A tokenizer token: surface text plus the optional katakana reading
(`tok.feature[9]` when the feature tuple is long enough). -/
structure Token where
  surface : List Char
  reading : Option (List Char)
  deriving Repr, DecidableEq

/-- The external collaborators and static data the core functions consume. -/
structure Ctx where
  tokenize : List Char → List Token
  kakasiConvert : List Char → List KItem
  kanjiTable : List (Nat × List Char)
  isKanji : Char → Bool
  isKana : Char → Bool
  kata2hiraChar : Char → Char
  halveBytes : List Nat → List Nat
  b64 : List Nat → List Char

/-- `grade_of` (core.py lines 213–219): `None` for non-kanji, the first
grade of the KANJI table whose list contains the character, else the
ungraded sentinel 99. -/
def grade_of (ctx : Ctx) (ch : Char) : Option Nat :=
  if ¬ ctx.isKanji ch then none
  else
    match ctx.kanjiTable.find? (fun p => p.2.contains ch) with
    | some p => some p.1
    | none => some 99

/-- Python truthiness of `grade_of(ch) and grade_of(ch) > max_grade`:
`None` and `0` are falsy, otherwise compare. -/
def truthyGt (og : Option Nat) (maxGrade : Nat) : Bool :=
  match og with
  | none => false
  | some n => decide (n ≠ 0) && decide (maxGrade < n)

/-- The per-character over-grade test of `sanitize`:
`is_kanji(ch) and grade_of(ch) and grade_of(ch) > max_grade`. -/
def overChar (ctx : Ctx) (maxGrade : Nat) (ch : Char) : Bool :=
  ctx.isKanji ch && truthyGt (grade_of ctx ch) maxGrade

/-- Whether a token surface triggers replacement in `sanitize`
(the `any(...)` generator on lines 228–229). -/
def tokNeedsReplace (ctx : Ctx) (maxGrade : Nat) (surf : List Char) : Bool :=
  surf.any (overChar ctx maxGrade)

/-- A character is over-grade in the sense of the spec: it is a kanji whose
grade (sentinel 99 included) exceeds the target grade.  For `Nat` grades
this coincides with the Python truthiness chain. -/
def overGradeChar (ctx : Ctx) (maxGrade : Nat) (ch : Char) : Bool :=
  match grade_of ctx ch with
  | none => false
  | some n => decide (maxGrade < n)

/-- VOWEL2HIRA (core.py line 33): romaji vowel → hiragana to append. -/
def VOWEL2HIRA (c : Char) : Char :=
  if c = 'a' then 'あ'
  else if c = 'i' then 'い'
  else if c = 'u' then 'う'
  else if c = 'e' then 'い'
  else 'う'

/-- `next((c for c in reversed(r) if c in "aiueo"), "u")`. -/
def lastVowel (r : List Char) : Char :=
  match r.reverse.find? (fun c => c == 'a' || c == 'i' || c == 'u' || c == 'e' || c == 'o') with
  | some v => v
  | none => 'u'

/-- One loop step of `kata2hira_fix`: skip a leading long-vowel mark,
expand an inner one via the last vowel of the previous output character's
hepburn romanization, copy anything else. -/
def kata2hiraStep (ctx : Ctx) (out : List Char) (ch : Char) : List Char :=
  if ch = 'ー' then
    match out.getLast? with
    | none => out
    | some prev =>
        let r := ((ctx.kakasiConvert [prev]).headD ⟨[], []⟩).hepburn
        out ++ [VOWEL2HIRA (lastVowel r)]
  else out ++ [ch]

/-- `kata2hira_fix` (core.py lines 140–158): `jaconv.kata2hira` character
by character, then the long-vowel-mark expansion loop. -/
def kata2hira_fix (ctx : Ctx) (textKata : List Char) : List Char :=
  (textKata.map ctx.kata2hiraChar).foldl (kata2hiraStep ctx) []

/-- The hiragana fallback reading: the concatenation of the `hira` field
over `kakasi.convert(s)` (core.py line 233). -/
def kakasiHira (ctx : Ctx) (s : List Char) : List Char :=
  ((ctx.kakasiConvert s).map (·.hira)).flatten

/-- Reading resolution shared by `sanitize` and `inject_ruby`
(lines 230–233 / 251–254): prefer a non-empty `tok.feature[9]` normalized
by `kata2hira_fix`, else the per-character kakasi fallback. -/
def resolveReading (ctx : Ctx) (tok : Token) : List Char :=
  match tok.reading with
  | some r => if r.isEmpty then kakasiHira ctx tok.surface else kata2hira_fix ctx r
  | none => kakasiHira ctx tok.surface

/-- Per-token output of `sanitize` (body of the loop, lines 227–237). -/
def sanitizeTok (ctx : Ctx) (maxGrade : Nat) (tok : Token) : List Char :=
  if tokNeedsReplace ctx maxGrade tok.surface then resolveReading ctx tok
  else tok.surface

/-- `sanitize` (core.py lines 221–238). -/
def sanitize (ctx : Ctx) (text : List Char) (maxGrade : Nat) : List Char :=
  ((ctx.tokenize text).map (sanitizeTok ctx maxGrade)).flatten

/-- `set(KANJI[str(grade)])` (core.py line 241), as the listed characters
of that grade (missing key modelled as the empty set). -/
def gradeSet (ctx : Ctx) (grade : Nat) : List Char :=
  match ctx.kanjiTable.find? (fun p => p.1 == grade) with
  | some p => p.2
  | none => []

/-- The okurigana-strip loop of `inject_ruby` (lines 257–262), run on the
reversed surface and reversed reading: count the matching trailing kana. -/
def okuriCount (ctx : Ctx) : List Char → List Char → Nat
  | s :: ss, r :: rs => if ctx.isKana s && s == r then okuriCount ctx ss rs + 1 else 0
  | _, _ => 0

/-- One output item of `inject_ruby`: either a surface emitted verbatim or
a ruby annotation (core, rt text) followed by the literal okurigana. -/
inductive Emit where
  | plain (s : List Char)
  | ruby (core rt okuri : List Char)
  deriving Repr, DecidableEq

/-- Per-token body of `inject_ruby` (lines 244–276). -/
def rubyTok (ctx : Ctx) (grade : Nat) (tok : Token) : Emit :=
  let surf := tok.surface
  if ¬ surf.any (fun c => (gradeSet ctx grade).contains c) then .plain surf
  else
    let reading := resolveReading ctx tok
    let k := okuriCount ctx surf.reverse reading.reverse
    let coreSurf := surf.take (surf.length - k)
    let coreRead := reading.take (reading.length - k)
    let okuri := surf.drop (surf.length - k)
    if coreRead.isEmpty then .plain surf
    else .ruby coreSurf coreRead okuri

/-- The `core_read` value `rubyTok` computes for a token (lines 257–268):
the resolved reading minus the okurigana suffix length. -/
def rubyCoreRead (ctx : Ctx) (tok : Token) : List Char :=
  let reading := resolveReading ctx tok
  reading.take (reading.length - okuriCount ctx tok.surface.reverse reading.reverse)

/-- The characters an `Emit` places outside any ruby annotation: a plain
surface entirely, or the okurigana appended after the annotation. -/
def emitBare : Emit → List Char
  | .plain s => s
  | .ruby _ _ okuri => okuri

/-- Rendering of an `Emit` to the HTML the Python code appends. -/
def renderEmit : Emit → List Char
  | .plain s => s
  | .ruby core rt okuri =>
      ("<ruby>").data ++ core ++ ("<rt>").data ++ rt ++ ("</rt></ruby>").data ++ okuri

/-- `inject_ruby` at the level of emitted items. -/
def inject_ruby_ems (ctx : Ctx) (text : List Char) (grade : Nat) : List Emit :=
  (ctx.tokenize text).map (rubyTok ctx grade)

/-- `inject_ruby` (core.py lines 240–277). -/
def inject_ruby (ctx : Ctx) (text : List Char) (grade : Nat) : List Char :=
  ((inject_ruby_ems ctx text grade).map renderEmit).flatten

/-- Tag stripping of `re.sub(r"<[^>]+>", "", html)` (core.py line 162):
an occurrence of `<`, at least one non-`>` character, then `>` is deleted;
everything else is kept.  Fuel-indexed so the kernel can evaluate it; each
step consumes at least one input character, so `l.length` fuel suffices. -/
def stripTagsFuel : Nat → List Char → List Char
  | 0, _ => []
  | _ + 1, [] => []
  | fuel + 1, c :: rest =>
    if c = '<' ∧ rest.takeWhile (fun d => d != '>') ≠ [] ∧
        rest.dropWhile (fun d => d != '>') ≠ [] then
      stripTagsFuel fuel ((rest.dropWhile (fun d => d != '>')).drop 1)
    else c :: stripTagsFuel fuel rest

/-- The visible text of an HTML fragment, tags removed. -/
def stripTags (l : List Char) : List Char := stripTagsFuel l.length l

/-- `plain_len` (core.py lines 160–162). -/
def plain_len (html : List Char) : Nat := (stripTags html).length

/-- CHAR_THRESHOLD (core.py line 31). -/
def CHAR_THRESHOLD : Nat := 500

/-- Python truthiness of the optional `img_name` argument: `None` and the
empty string are falsy. -/
def imgTruthy : Option (List Char) → Bool
  | none => false
  | some s => !s.isEmpty

/-- The side-by-side page markup of `page_html` (lines 167–171),
whitespace included. -/
def sideSection (textHtml imgName : List Char) : List Char :=
  ("\n                <section class=\"side\">\n                  <div class=\"text\">").data
    ++ textHtml
    ++ ("</div>\n                  <img src=\"").data
    ++ imgName
    ++ ("\" alt=\"\">\n                </section>").data

/-- The solo text page markup (line 174). -/
def soloSection (textHtml : List Char) : List Char :=
  ("<section class=\x27solo\x27>").data ++ textHtml ++ ("</section>").data

/-- The picture page markup (line 176). -/
def pictureSection (imgName : List Char) : List Char :=
  ("<section class=\x27picture\x27><img src=\x27").data ++ imgName
    ++ ("\x27 alt=\x27\x27></section>").data

/-- `page_html` (core.py lines 164–177). -/
def page_html (textHtml : List Char) (imgName : Option (List Char)) (charLen : Nat) :
    List Char :=
  if imgTruthy imgName && decide (charLen < CHAR_THRESHOLD) then
    sideSection textHtml (imgName.getD [])
  else
    soloSection textHtml ++
      (if imgTruthy imgName then pictureSection (imgName.getD []) else [])

/-- A layout section as the spec describes the output of the layout step. -/
inductive Section where
  | side (text img : List Char)
  | solo (text : List Char)
  | picture (img : List Char)
  deriving Repr, DecidableEq

/-- Rendering a spec-level section back to the markup `page_html` builds. -/
def renderSection : Section → List Char
  | .side t i => sideSection t i
  | .solo t => soloSection t
  | .picture i => pictureSection i

/-- The section sequence `page_html` stands for, read off its branches. -/
def pageSections (textHtml : List Char) (imgName : Option (List Char)) (charLen : Nat) :
    List Section :=
  if imgTruthy imgName && decide (charLen < CHAR_THRESHOLD) then
    [.side textHtml (imgName.getD [])]
  else
    .solo textHtml ::
      (if imgTruthy imgName then [.picture (imgName.getD [])] else [])

/-- Python `s.replace(old, new)`, fuel-indexed: replace each leftmost
non-overlapping occurrence of `old` in `s` by `new` (the empty-pattern
case never arises in the source, where `old` is a data URI).  Each step
consumes at least one input character, so `s.length` fuel suffices. -/
def strReplaceFuel (old new : List Char) : Nat → List Char → List Char
  | 0, _ => []
  | _ + 1, [] => []
  | fuel + 1, c :: rest =>
    if old.isPrefixOf (c :: rest) ∧ old ≠ [] then
      new ++ strReplaceFuel old new fuel ((c :: rest).drop old.length)
    else c :: strReplaceFuel old new fuel rest

/-- Python `s.replace(old, new)`. -/
def strReplace (old new s : List Char) : List Char :=
  strReplaceFuel old new s.length s

/-- `as_data_uri` (core.py lines 136–138) at its default JPEG mime type. -/
def as_data_uri (ctx : Ctx) (imgBytes : List Nat) : List Char :=
  ("data:image/jpeg;base64,").data ++ ctx.b64 imgBytes

/-- The EPUB image asset name `f"img{i}.jpg"` (core.py line 519). -/
def epubImgName (i : Nat) : List Char :=
  ("img").data ++ (toString i).data ++ (".jpg").data

/-- The side-by-side markup built inline in `make_reader` (lines 538–542);
its indentation differs from `page_html`'s. -/
def sideSectionMR (textHtml imgSrc : List Char) : List Char :=
  ("\n                <section class=\"side\">\n                <div class=\"text\">").data
    ++ textHtml
    ++ ("</div>\n                <img src=\"").data
    ++ imgSrc
    ++ ("\" alt=\"\">\n                </section>").data

/-- Step V of `make_reader` for one (html, image) pair (lines 515–579):
the EPUB-spine section contents and the flattened-HTML section contents
this pair contributes, in order.  `i` is the 1-based piece index.  The
EPUB variant of an image-bearing section is the flattened variant with the
inline data URI replaced by the EPUB asset file name
(`sec.replace(data_uri, epub_src)`). -/
def epub_pdf_piece (ctx : Ctx) (i : Nat) (html : List Char) (img : Option (List Nat)) :
    List (List Char) × List (List Char) :=
  match img with
  | some b =>
    let imgName := epubImgName i
    let dataUri := as_data_uri ctx (ctx.halveBytes b)
    if plain_len html < CHAR_THRESHOLD then
      let sec := sideSectionMR html dataUri
      ([strReplace dataUri imgName sec], [sec])
    else
      let txtSec := soloSection html
      let imgSec := pictureSection dataUri
      ([txtSec, strReplace dataUri imgName imgSec], [txtSec, imgSec])
  | none =>
    ([soloSection html], [soloSection html])

/-- The loop of Step V over `zip(html_pieces, imgs)` enumerated from 1:
accumulates the spine contents and the `pdf_pages` list. -/
def assembleFrom (ctx : Ctx) : Nat → List (List Char × Option (List Nat)) →
    List (List Char) × List (List Char)
  | _, [] => ([], [])
  | i, (html, img) :: rest =>
    let ep := epub_pdf_piece ctx i html img
    let rec_ := assembleFrom ctx (i + 1) rest
    (ep.1 ++ rec_.1, ep.2 ++ rec_.2)

/-- The two section sequences a successful run emits: the EPUB spine
(`book.spine = ["nav"] + spine`, by page content) and the flattened-HTML
page list (`pdf_pages`). -/
def assemble (ctx : Ctx) (pieces : List (List Char × Option (List Nat))) :
    List (List Char) × List (List Char) :=
  let ab := assembleFrom ctx 1 pieces
  (("nav").data :: ab.1, ab.2)

/-- The section-joining loop of `build_full_html` (core.py lines 193–197);
the surrounding static page template is not modelled. -/
def build_full_html_content (htmlPieces : List (List Char)) : List Char :=
  htmlPieces.foldl
    (fun joined block =>
      joined ++ ("<div>").data ++ block
        ++ ("</div><div class=\x27pagebreak\x27></div>").data) []

/-- MAX_RETRY_SPLIT (core.py line 36). -/
def MAX_RETRY_SPLIT : Nat := 2

/-- One piece returned by the story splitter (`{text:, prompt:}`). -/
structure SplitPiece where
  text : List Char
  prompt : List Char
  deriving Repr, DecidableEq

/-- The split-validation retry loop of `make_reader` (lines 424–441).
`stub` is the external splitter: the pieces its reply to the identical
request parses to on a given 0-based attempt.  Returns the pieces of the
first reply with the expected count, or (after attempts
`0..MAX_RETRY_SPLIT`) the observed and expected counts of the last
attempt as the data of the `ValueError`. -/
def split_loop (stub : Nat → List SplitPiece) (expected : Nat) (attempt : Nat) :
    Except (Nat × Nat) (List SplitPiece) :=
  let pieces := stub attempt
  if pieces.length = expected then .ok pieces
  else if _h : attempt < MAX_RETRY_SPLIT then split_loop stub expected (attempt + 1)
  else .error (pieces.length, expected)
termination_by MAX_RETRY_SPLIT + 1 - attempt
decreasing_by omega

/-- The whole retry loop, started at attempt 0. -/
def split_run (stub : Nat → List SplitPiece) (expected : Nat) :
    Except (Nat × Nat) (List SplitPiece) :=
  split_loop stub expected 0

/-- ASCII alphanumeric, the class kept by the `[^A-Za-z0-9]+` pattern. -/
def isAlnumAscii (c : Char) : Bool :=
  (decide (65 ≤ c.toNat) && decide (c.toNat ≤ 90)) ||
  (decide (97 ≤ c.toNat) && decide (c.toNat ≤ 122)) ||
  (decide (48 ≤ c.toNat) && decide (c.toNat ≤ 57))

/-- `re.sub(r"[^A-Za-z0-9]+", "_", roma)`: each maximal run of non-ASCII-
alphanumeric characters becomes one underscore.  The flag records whether
the previous character was part of such a run. -/
def collapseGo : Bool → List Char → List Char
  | _, [] => []
  | prevRun, c :: rest =>
    if isAlnumAscii c then c :: collapseGo false rest
    else if prevRun then collapseGo true rest
    else '_' :: collapseGo true rest

/-- Leading-underscore removal of Python `.strip("_")`. -/
def lstripU (s : List Char) : List Char := s.dropWhile (fun c => c == '_')

/-- Trailing-underscore removal of Python `.strip("_")`. -/
def rstripU : List Char → List Char
  | [] => []
  | c :: rest => if rstripU rest = [] ∧ c = '_' then [] else c :: rstripU rest

/-- Python `str.lower()` restricted to the ASCII range (the only
characters present after the substitution step). -/
def pyLower (c : Char) : Char :=
  if 65 ≤ c.toNat ∧ c.toNat ≤ 90 then Char.ofNat (c.toNat + 32) else c

/-- The romanization `romaji_slug` starts from:
the concatenated `hepburn` fields of `kakasi.convert(text)`. -/
def romaOf (ctx : Ctx) (text : List Char) : List Char :=
  ((ctx.kakasiConvert text).map (·.hepburn)).flatten

/-- `romaji_slug` (core.py lines 179–188) with its default `maxlen = 50`:
romanize via kakasi, substitute non-alphanumeric runs, strip underscores,
lowercase, truncate, and default to `"untitled"` when empty. -/
def romaji_slug (ctx : Ctx) (text : List Char) (maxlen : Nat := 50) : List Char :=
  let roma2 := (rstripU (lstripU (collapseGo false (romaOf ctx text)))).map pyLower
  let truncated := roma2.take maxlen
  if truncated.isEmpty then ("untitled").data else truncated

/-- A character allowed in a finished slug: a lowercase ASCII letter, an
ASCII digit, or an underscore. -/
def goodSlugChar (c : Char) : Bool :=
  (decide (97 ≤ c.toNat) && decide (c.toNat ≤ 122)) ||
  (decide (48 ≤ c.toNat) && decide (c.toNat ≤ 57)) ||
  c == '_'

/-- The claim's reading of the Phonetic Normalizer, written from the
spec's words: process the katakana characters left to right; an ordinary
character is converted to hiragana; a long-vowel mark with no preceding
output character is dropped, and otherwise is replaced by the hiragana
vowel continuing the preceding output character's vowel sound (last vowel
letter of its romanization, default u). -/
def kata2hira_claim (ctx : Ctx) (textKata : List Char) : List Char :=
  textKata.foldl
    (fun out ch =>
      if ch = 'ー' then
        match out.getLast? with
        | none => out
        | some prev =>
            let r := ((ctx.kakasiConvert [prev]).headD ⟨[], []⟩).hepburn
            out ++ [VOWEL2HIRA (lastVowel r)]
      else out ++ [ctx.kata2hiraChar ch]) []

/-!  Concrete collaborator contexts used to instantiate the theorems.
Each models a possible behavior of the external tokenizer/romanizer on
the handful of characters involved. -/

/-- A minimal collaborator context: one token per text, kakasi passes the
input through unchanged with an empty romanization (its behavior on
characters it has no reading for), grade table `{1: [一]}`. -/
def ctxBase : Ctx where
  tokenize := fun t => [⟨t, none⟩]
  kakasiConvert := fun s => [⟨s, []⟩]
  kanjiTable := [(1, ['一'])]
  isKanji := fun c => c == '漢' || c == '一' || c == '字' || c == '食'
  isKana := fun c => c == 'べ' || c == 'る' || c == 'た' || c == 'か' || c == 'ん'
  kata2hiraChar := id
  halveBytes := id
  b64 := fun _ => []

/-- Pass-through kakasi on the over-grade kanji 漢 (no reading known):
realizes the documented best-effort fallback of `sanitize`. -/
def ctxA : Ctx := ctxBase

/-- Kakasi knows the reading of 漢 and returns hiragana かん. -/
def ctxB : Ctx :=
  { ctxBase with
    kakasiConvert := fun s =>
      if s = ['漢'] then [⟨['か', 'ん'], []⟩] else [⟨s, []⟩] }

/-- A romanizer that maps the ungraded kanji 漢 and 字 to each other:
each call yields an over-grade character again, so re-sanitizing moves
the text instead of fixing it. -/
def ctxC : Ctx :=
  { ctxBase with
    kakasiConvert := fun s =>
      if s = ['漢'] then [⟨['字'], []⟩]
      else if s = ['字'] then [⟨['漢'], []⟩]
      else [⟨s, []⟩] }

/-- Grade table `{1: [食]}` with an anomalous reading for the token 食べ:
the whole reading is the kana べ, so okurigana stripping consumes it and
the empty-ruby guard fires. -/
def ctxD : Ctx :=
  { ctxBase with
    kanjiTable := [(1, ['食'])]
    kakasiConvert := fun s =>
      if s = ['食', 'べ'] then [⟨['べ'], []⟩] else [⟨s, []⟩] }

/-- Grade table `{1: [食]}` with the correct reading たべ for 食べ. -/
def ctxE : Ctx :=
  { ctxBase with
    kanjiTable := [(1, ['食'])]
    kakasiConvert := fun s =>
      if s = ['食', 'べ'] then [⟨['た', 'べ'], []⟩]
      else if s = ['食', 'べ', 'る'] then [⟨['た', 'べ', 'る'], []⟩]
      else [⟨s, []⟩] }

/-- A context whose romanizer knows コ (hepburn "ko"); used for the
long-vowel expansion witness on コーヒー. -/
def ctxK : Ctx :=
  { ctxBase with
    kakasiConvert := fun s =>
      if s = ['コ'] then [⟨[], ['k', 'o']⟩] else [⟨s, []⟩] }

/-- A context for the layout counterexample: base64 of any payload is
empty, so the data URI is exactly the fixed prefix. -/
def ctxM : Ctx := ctxBase

/-- A romanizer that returns its input as the hepburn romanization,
exercising the slug path on ASCII text. -/
def ctxR : Ctx :=
  { ctxBase with kakasiConvert := fun s => [⟨s, s⟩] }

/-- Correspondence between a spine content section and the flattened-HTML
section at the same position: they are identical, or the spine copy is
the flattened copy with some piece's inline data URI rewritten to that
piece's EPUB asset file name (`sec.replace(data_uri, epub_src)`). -/
def SecMatches (ctx : Ctx) (e p : List Char) : Prop :=
  e = p ∨ ∃ (i : Nat) (b : List Nat),
    e = strReplace (as_data_uri ctx (ctx.halveBytes b)) (epubImgName i) p

/-!  ## Theorems -/

/-- The retry loop fully unfolded over its three attempts. -/
theorem split_run_eq (stub : Nat → List SplitPiece) (N : Nat) :
    split_run stub N =
      (if (stub 0).length = N then .ok (stub 0)
       else if (stub 1).length = N then .ok (stub 1)
       else if (stub 2).length = N then .ok (stub 2)
       else .error ((stub 2).length, N)) := by
  rw [split_run, split_loop]
  rw [split_loop, split_loop]
  norm_num [MAX_RETRY_SPLIT]

/-- Claim C5: for a positive requested piece count N, the orchestrator
accepts a splitter reply iff its piece count is exactly N; on mismatch it
retries the identical request, succeeding with the first conforming reply,
and after MAX_RETRY_SPLIT + 1 = 3 non-conforming attempts it fails with an
error carrying the observed and the expected count. -/
theorem claim_C5_split_retry (stub : Nat → List SplitPiece) (N k : Nat) :
    (k ≤ MAX_RETRY_SPLIT → (stub k).length = N →
      (∀ j, j < k → (stub j).length ≠ N) →
      split_run stub N = .ok (stub k))
    ∧ ((∀ j, j ≤ MAX_RETRY_SPLIT → (stub j).length ≠ N) →
      split_run stub N = .error ((stub MAX_RETRY_SPLIT).length, N)) := by
  constructor
  · intro hk hgood hbad
    rw [split_run_eq]
    have hk2 : k ≤ 2 := by simpa [MAX_RETRY_SPLIT] using hk
    interval_cases k
    · simp [hgood]
    · simp [hbad 0 (by omega), hgood]
    · simp [hbad 0 (by omega), hbad 1 (by omega), hgood]
  · intro hbad
    rw [split_run_eq]
    simp [MAX_RETRY_SPLIT, hbad 0 (by simp [MAX_RETRY_SPLIT]),
      hbad 1 (by simp [MAX_RETRY_SPLIT]), hbad 2 (by simp [MAX_RETRY_SPLIT])]

/-- Witness for C5: a stub wrong on attempts 0 and 1 and right on attempt
2 succeeds with attempt 2's pieces; an always-wrong stub fails with the
observed and expected counts. -/
theorem claim_C5_split_retry_witness :
    split_run (fun n => if n = 2 then [⟨[], []⟩] else []) 1 = .ok [⟨[], []⟩]
    ∧ split_run (fun _ => ([] : List SplitPiece)) 1 = .error (0, 1) := by
  refine ⟨?_, ?_⟩
  · have h := (claim_C5_split_retry (fun n => if n = 2 then [⟨[], []⟩] else []) 1 2).1
      (by decide) (by decide) (by decide)
    simpa using h
  · have h := (claim_C5_split_retry (fun _ => ([] : List SplitPiece)) 1 0).2
      (fun j _ => by simp)
    simpa using h

/-- Claim C6: with the visible (tag-stripped) length of the fragment and
threshold 500, `page_html` renders exactly one side section when an image
is present and the length is under the threshold, and otherwise a solo
section followed, when an image is present, by one picture section. -/
theorem claim_C6_layout (textHtml : List Char) (imgName : Option (List Char)) :
    page_html textHtml imgName (plain_len textHtml) =
      ((pageSections textHtml imgName (plain_len textHtml)).map renderSection).flatten
    ∧ (imgTruthy imgName = true → plain_len textHtml < CHAR_THRESHOLD →
        pageSections textHtml imgName (plain_len textHtml) =
          [Section.side textHtml (imgName.getD [])])
    ∧ (¬ (imgTruthy imgName = true ∧ plain_len textHtml < CHAR_THRESHOLD) →
        pageSections textHtml imgName (plain_len textHtml) =
          Section.solo textHtml ::
            (if imgTruthy imgName = true then [Section.picture (imgName.getD [])] else [])) := by
  by_cases himg : imgTruthy imgName = true <;>
    by_cases hlen : plain_len textHtml < CHAR_THRESHOLD <;>
      simp [page_html, pageSections, renderSection, himg, hlen]

/-- Witness for C6: the spec's two instances, a 100-character fragment
with an image giving one side section and a 600-character fragment with an
image giving a solo section then a picture section. -/
theorem claim_C6_layout_witness :
    pageSections (List.replicate 100 'a') (some (("i.jpg").data))
        (plain_len (List.replicate 100 'a')) =
      [Section.side (List.replicate 100 'a') (("i.jpg").data)]
    ∧ pageSections (List.replicate 600 'a') (some (("i.jpg").data))
        (plain_len (List.replicate 600 'a')) =
      [Section.solo (List.replicate 600 'a'), Section.picture (("i.jpg").data)] := by
  refine ⟨?_, ?_⟩
  · exact (claim_C6_layout (List.replicate 100 'a') (some (("i.jpg").data))).2.1
      (by decide) (by decide)
  · have h := (claim_C6_layout (List.replicate 600 'a') (some (("i.jpg").data))).2.2
      (by decide)
    simpa using h

/-- Claim C9: a token that triggers replacement but has no tokenizer
reading (feature absent or empty) and whose per-character kakasi fallback
passes the surface through unchanged is emitted as its original surface;
`sanitize` is the concatenation of these per-token results. -/
theorem claim_C9_no_reading_fallback (ctx : Ctx) (g : Nat) (tok : Token)
    (text : List Char) :
    sanitize ctx text g = ((ctx.tokenize text).map (sanitizeTok ctx g)).flatten
    ∧ (tokNeedsReplace ctx g tok.surface = true →
        (tok.reading = none ∨ tok.reading = some []) →
        kakasiHira ctx tok.surface = tok.surface →
        sanitizeTok ctx g tok = tok.surface) := by
  refine ⟨rfl, ?_⟩
  intro hrep hread hfall
  rw [sanitizeTok, if_pos hrep, resolveReading]
  rcases hread with h | h <;> rw [h] <;> simp [hfall]

/-- Witness for C9: under the pass-through romanizer, the over-grade token
漢 with no reading is emitted unchanged. -/
theorem claim_C9_no_reading_fallback_witness :
    sanitizeTok ctxA 1 ⟨("漢").data, none⟩ = ("漢").data :=
  (claim_C9_no_reading_fallback ctxA 1 ⟨("漢").data, none⟩ []).2
    (by decide) (Or.inl rfl) (by decide)

/-- The Python truthiness chain of `sanitize` agrees with the spec's
over-grade test: grades are never 0, so the extra truthiness conjunct is
redundant. -/
theorem overChar_eq_overGradeChar (ctx : Ctx) (g : Nat) (c : Char) :
    overChar ctx g c = overGradeChar ctx g c := by
  unfold overChar overGradeChar grade_of truthyGt
  by_cases hk : ctx.isKanji c
  · simp only [hk, not_true_eq_false, if_false, Bool.true_and]
    cases hfind : ctx.kanjiTable.find? (fun p => p.2.contains c) with
    | none => simp
    | some p =>
        simp only
        by_cases hg : g < p.1
        · have hne : p.1 ≠ 0 := by omega
          simp [hg, hne]
        · simp [hg]
  · simp [hk]

/-- A character of a member list is a character of the flattened list. -/
theorem mem_flatten_of_mem_surface {toks : List Token} {tok : Token} {c : Char}
    (htok : tok ∈ toks) (hc : c ∈ tok.surface) :
    c ∈ (toks.map Token.surface).flatten :=
  List.mem_flatten.2 ⟨tok.surface, List.mem_map_of_mem Token.surface htok, hc⟩

/-- Claim C1, amended: when every token that triggers replacement resolves
to a reading free of over-grade characters, the output of `sanitize`
contains no character whose grade (ungraded sentinel 99 included) exceeds
the target grade. -/
theorem claim_C1_sanitize_graded (ctx : Ctx) (text : List Char) (g : Nat)
    (hread : ∀ tok ∈ ctx.tokenize text, tokNeedsReplace ctx g tok.surface = true →
      ∀ c ∈ resolveReading ctx tok, overGradeChar ctx g c = false) :
    ∀ c ∈ sanitize ctx text g, overGradeChar ctx g c = false := by
  intro c hc
  rw [sanitize] at hc
  rcases List.mem_flatten.1 hc with ⟨piece, hpiece, hcp⟩
  rcases List.mem_map.1 hpiece with ⟨tok, htok, rfl⟩
  by_cases hrep : tokNeedsReplace ctx g tok.surface = true
  · rw [sanitizeTok, if_pos hrep] at hcp
    exact hread tok htok hrep c hcp
  · rw [sanitizeTok, if_neg hrep] at hcp
    rw [← overChar_eq_overGradeChar]
    by_contra hover
    exact hrep (List.any_eq_true.2 ⟨c, hcp, by simpa using hover⟩)

/-- Witness for the amended C1: a romanizer that reads 漢 as かん yields a
graded output, sampled at its first character か. -/
theorem claim_C1_sanitize_graded_witness :
    overGradeChar ctxB 1 'か' = false :=
  claim_C1_sanitize_graded ctxB (("漢").data) 1 (by decide) 'か' (by decide)

/-- Counterexample to C1 as stated: with the documented best-effort
fallback (kakasi passes a reading-less kanji through unchanged), the
over-grade kanji 漢 survives sanitization. -/
theorem claim_C1_counterexample :
    '漢' ∈ sanitize ctxA (("漢").data) 1 ∧ overGradeChar ctxA 1 '漢' = true := by
  decide

/-- Claim C8, amended: if the first pass's output has no over-grade
character and the tokenizer's surfaces concatenate back to that output,
then sanitizing it again is the identity, so `sanitize` is idempotent. -/
theorem claim_C8_idempotent (ctx : Ctx) (text : List Char) (g : Nat)
    (hconcat : ((ctx.tokenize (sanitize ctx text g)).map Token.surface).flatten =
      sanitize ctx text g)
    (hclean : ∀ c ∈ sanitize ctx text g, overGradeChar ctx g c = false) :
    sanitize ctx (sanitize ctx text g) g = sanitize ctx text g := by
  conv_lhs => rw [sanitize]
  conv_rhs => rw [← hconcat]
  congr 1
  apply List.map_congr_left
  intro tok htok
  rw [sanitizeTok, if_neg]
  intro hrep
  rcases List.any_eq_true.1 hrep with ⟨c, hcs, hover⟩
  have hmem : c ∈ sanitize ctx text g :=
    hconcat ▸ mem_flatten_of_mem_surface htok hcs
  have := hclean c hmem
  rw [overChar_eq_overGradeChar] at hover
  simp [this] at hover

/-- Witness for the amended C8: the kana-producing romanizer context. -/
theorem claim_C8_idempotent_witness :
    sanitize ctxB (sanitize ctxB (("漢").data) 1) 1 = sanitize ctxB (("漢").data) 1 :=
  claim_C8_idempotent ctxB (("漢").data) 1 (by decide) (by decide)

/-- Counterexample to C8 as stated: a romanizer whose reading of the
ungraded kanji 漢 is the ungraded kanji 字 and vice versa makes a second
sanitization pass change the text again. -/
theorem claim_C8_counterexample :
    sanitize ctxC (sanitize ctxC (("漢").data) 1) 1 ≠ sanitize ctxC (("漢").data) 1 := by
  decide

/-- `Char.ofNat` below the surrogate range round-trips through `toNat`. -/
theorem charOfNat_toNat (n : Nat) (h : n < 55296) : (Char.ofNat n).toNat = n := by
  have hv : n.isValidChar := Or.inl h
  simp only [Char.ofNat, hv, dif_pos, Char.ofNatAux, Char.toNat]
  rfl

/-- Every character of the substitution output is alphanumeric or an
underscore. -/
theorem collapseGo_mem (l : List Char) :
    ∀ (b : Bool), ∀ c ∈ collapseGo b l, isAlnumAscii c = true ∨ c = '_' := by
  induction l with
  | nil => intro b c hc; simp [collapseGo] at hc
  | cons a as ih =>
    intro b c hc
    rw [collapseGo] at hc
    by_cases ha : isAlnumAscii a
    · rw [if_pos ha] at hc
      rcases List.mem_cons.1 hc with rfl | hmem
      · exact Or.inl ha
      · exact ih false c hmem
    · rw [if_neg ha] at hc
      by_cases hb : b
      · rw [if_pos hb] at hc
        exact ih true c hc
      · rw [if_neg hb] at hc
        rcases List.mem_cons.1 hc with rfl | hmem
        · exact Or.inr rfl
        · exact ih true c hmem

/-- If no character is alphanumeric and a run is already open, the
substitution output is empty. -/
theorem collapseGo_true_nil (l : List Char)
    (hbad : ∀ c ∈ l, isAlnumAscii c = false) : collapseGo true l = [] := by
  induction l with
  | nil => rfl
  | cons a as ih =>
    rw [collapseGo, if_neg, if_pos rfl]
    · exact ih fun c hc => hbad c (List.mem_cons_of_mem a hc)
    · simp [hbad a (List.mem_cons_self a as)]

/-- If no character is alphanumeric, the substitution output is empty or a
single underscore. -/
theorem collapseGo_false_nil (l : List Char)
    (hbad : ∀ c ∈ l, isAlnumAscii c = false) :
    collapseGo false l = [] ∨ collapseGo false l = ['_'] := by
  cases l with
  | nil => exact Or.inl rfl
  | cons a as =>
    right
    rw [collapseGo, if_neg, if_neg]
    · rw [collapseGo_true_nil as fun c hc => hbad c (List.mem_cons_of_mem a hc)]
    · simp
    · simp [hbad a (List.mem_cons_self a as)]

/-- Trailing-strip output characters come from the input. -/
theorem rstripU_subset (l : List Char) : ∀ c ∈ rstripU l, c ∈ l := by
  induction l with
  | nil => intro c hc; simp [rstripU] at hc
  | cons a as ih =>
    intro c hc
    rw [rstripU] at hc
    split at hc
    · simp at hc
    · rcases List.mem_cons.1 hc with rfl | hmem
      · exact List.mem_cons.2 (Or.inl rfl)
      · exact List.mem_cons_of_mem _ (ih c hmem)

/-- Trailing-strip of a cons is empty or keeps the same head. -/
theorem rstripU_cons (a : Char) (rest : List Char) :
    rstripU (a :: rest) = [] ∨ ∃ r, rstripU (a :: rest) = a :: r := by
  rw [rstripU]
  split
  · exact Or.inl rfl
  · exact Or.inr ⟨rstripU rest, rfl⟩

/-- The head surviving the leading strip is not an underscore. -/
theorem lstripU_head (s : List Char) :
    ∀ c t, lstripU s = c :: t → c ≠ '_' := by
  induction s with
  | nil => intro c t h; simp [lstripU] at h
  | cons a as ih =>
    intro c t h
    rw [lstripU, List.dropWhile_cons] at h
    by_cases ha : a = '_'
    · rw [if_pos (by simp [ha])] at h
      exact ih c t h
    · rw [if_neg (by simp [ha])] at h
      injection h with h1 h2
      exact h1 ▸ ha

/-- Lowercasing a kept character yields a slug character. -/
theorem pyLower_good (c : Char) (h : isAlnumAscii c = true ∨ c = '_') :
    goodSlugChar (pyLower c) = true := by
  rcases h with h | rfl
  · simp only [isAlnumAscii, Bool.or_eq_true, Bool.and_eq_true,
      decide_eq_true_eq] at h
    by_cases hup : 65 ≤ c.toNat ∧ c.toNat ≤ 90
    · rw [pyLower, if_pos hup]
      have ht : (Char.ofNat (c.toNat + 32)).toNat = c.toNat + 32 :=
        charOfNat_toNat _ (by omega)
      simp only [goodSlugChar, Bool.or_eq_true, Bool.and_eq_true,
        decide_eq_true_eq]
      exact Or.inl (Or.inl (by omega))
    · rw [pyLower, if_neg hup]
      simp only [goodSlugChar, Bool.or_eq_true, Bool.and_eq_true,
        decide_eq_true_eq]
      rcases h with (h1 | h2) | h3
      · exact absurd h1 hup
      · exact Or.inl (Or.inl h2)
      · exact Or.inl (Or.inr h3)
  · decide

/-- Lowercasing an alphanumeric character never yields an underscore. -/
theorem pyLower_ne_underscore (c : Char) (h : isAlnumAscii c = true) :
    pyLower c ≠ '_' := by
  simp only [isAlnumAscii, Bool.or_eq_true, Bool.and_eq_true,
    decide_eq_true_eq] at h
  by_cases hup : 65 ≤ c.toNat ∧ c.toNat ≤ 90
  · rw [pyLower, if_pos hup]
    intro he
    have ht : (Char.ofNat (c.toNat + 32)).toNat = c.toNat + 32 :=
      charOfNat_toNat _ (by omega)
    rw [he] at ht
    have h95 : ('_').toNat = 95 := rfl
    omega
  · rw [pyLower, if_neg hup]
    intro he
    have h95 : c.toNat = 95 := by rw [he]; rfl
    rcases h with (h1 | h2) | h3
    · exact hup h1
    · omega
    · omega

/-- Claim C10: with the default maxlen of 50, `romaji_slug` returns a
non-empty string of at most 50 characters drawn from lowercase ASCII
letters, digits and underscores, never starting with an underscore, and
returns exactly "untitled" when the romanization has no ASCII
alphanumeric character. -/
theorem claim_C10_slug (ctx : Ctx) (text : List Char) :
    romaji_slug ctx text ≠ []
    ∧ (romaji_slug ctx text).length ≤ 50
    ∧ (∀ c ∈ romaji_slug ctx text, goodSlugChar c = true)
    ∧ (∀ c, (romaji_slug ctx text).head? = some c → c ≠ '_')
    ∧ ((∀ c ∈ romaOf ctx text, isAlnumAscii c = false) →
        romaji_slug ctx text = ("untitled").data) := by
  have hs1 : ∀ c ∈ rstripU (lstripU (collapseGo false (romaOf ctx text))),
      isAlnumAscii c = true ∨ c = '_' := by
    intro c hc
    have hc2 : c ∈ lstripU (collapseGo false (romaOf ctx text)) :=
      rstripU_subset _ c hc
    have hc3 : c ∈ collapseGo false (romaOf ctx text) :=
      (List.dropWhile_sublist _).subset hc2
    exact collapseGo_mem _ false c hc3
  rw [romaji_slug]
  by_cases hemp :
      (((rstripU (lstripU (collapseGo false (romaOf ctx text)))).map pyLower).take 50).isEmpty
  · simp only [hemp, if_pos]
    exact ⟨by decide, by decide, by decide, by decide, fun _ => trivial⟩
  · simp only [hemp, if_neg, Bool.false_eq_true, not_false_eq_true]
    refine ⟨?_, ?_, ?_, ?_, ?_⟩
    · intro h
      rw [h] at hemp
      exact hemp rfl
    · exact List.length_take_le 50 _
    · intro c hc
      have hc2 : c ∈ (rstripU (lstripU (collapseGo false (romaOf ctx text)))).map pyLower :=
        List.mem_of_mem_take hc
      rcases List.mem_map.1 hc2 with ⟨d, hd, rfl⟩
      exact pyLower_good d (hs1 d hd)
    · intro c hc
      cases hls : lstripU (collapseGo false (romaOf ctx text)) with
      | nil =>
          rw [hls] at hemp
          simp [rstripU] at hemp
      | cons a as =>
          have hane : a ≠ '_' := lstripU_head _ a as hls
          rw [hls] at hemp hc
          rcases rstripU_cons a as with hr | ⟨r, hr⟩
          · rw [hr] at hemp
            simp at hemp
          · rw [hr] at hc
            simp only [List.map_cons, List.take_succ_cons, List.head?_cons,
              Option.some.injEq] at hc
            have halnum : isAlnumAscii a = true := by
              have := hs1 a (by rw [hls, hr]; exact List.mem_cons.2 (Or.inl rfl))
              rcases this with h | h
              · exact h
              · exact absurd h hane
            rw [← hc]
            exact pyLower_ne_underscore a halnum
    · intro hbad
      exfalso
      rcases collapseGo_false_nil _ hbad with hcg | hcg <;>
        rw [hcg] at hemp <;> simp [lstripU, rstripU] at hemp

/-- Witness for C10: the slug of "abC__d!!e" under the identity romanizer
starts with the letter a (not an underscore), and the empty-romanization
context yields exactly "untitled". -/
theorem claim_C10_slug_witness :
    (('a') ≠ ('_') )
    ∧ romaji_slug ctxBase (("X").data) = ("untitled").data := by
  refine ⟨?_, ?_⟩
  · exact (claim_C10_slug ctxR (("abC__d!!e").data)).2.2.2.1 ('a') (by decide)
  · exact (claim_C10_slug ctxBase (("X").data)).2.2.2.2 (by decide)

/-- The VOWEL2HIRA values are あ, い and う — never the long-vowel mark. -/
theorem VOWEL2HIRA_ne_dash (c : Char) : VOWEL2HIRA c ≠ 'ー' := by
  unfold VOWEL2HIRA
  split
  · decide
  · split
    · decide
    · split
      · decide
      · split
        · decide
        · decide

/-- The expansion loop never appends a long-vowel mark. -/
theorem kata2hira_fold_no_dash (ctx : Ctx) (l : List Char) :
    ∀ out, 'ー' ∉ out → 'ー' ∉ l.foldl (kata2hiraStep ctx) out := by
  induction l with
  | nil => intro out h; simpa using h
  | cons a as ih =>
    intro out h
    rw [List.foldl_cons]
    apply ih
    rw [kata2hiraStep]
    by_cases ha : a = 'ー'
    · rw [if_pos ha]
      cases hlast : out.getLast? with
      | none => exact h
      | some prev =>
          intro hmem
          rcases List.mem_append.1 hmem with hmem | hmem
          · exact h hmem
          · have := List.mem_singleton.1 hmem
            exact VOWEL2HIRA_ne_dash _ this.symm
    · rw [if_neg ha]
      intro hmem
      rcases List.mem_append.1 hmem with hmem | hmem
      · exact h hmem
      · exact ha (List.mem_singleton.1 hmem).symm

/-- When the base conversion fixes ー and maps nothing else to ー, folding
the code's step over the converted characters equals folding the spec's
step over the raw characters. -/
theorem kata2hira_fold_claim (ctx : Ctx) (l : List Char)
    (hdash : ∀ c : Char, ctx.kata2hiraChar c = 'ー' ↔ c = 'ー') :
    ∀ out, (l.map ctx.kata2hiraChar).foldl (kata2hiraStep ctx) out =
      l.foldl (fun o ch =>
        if ch = 'ー' then
          match o.getLast? with
          | none => o
          | some prev =>
              o ++ [VOWEL2HIRA (lastVowel
                (((ctx.kakasiConvert [prev]).headD ⟨[], []⟩).hepburn))]
        else o ++ [ctx.kata2hiraChar ch]) out := by
  induction l with
  | nil => intro out; rfl
  | cons a as ih =>
    intro out
    rw [List.map_cons, List.foldl_cons, List.foldl_cons]
    rw [show kata2hiraStep ctx out (ctx.kata2hiraChar a) =
      (if a = 'ー' then
        match out.getLast? with
        | none => out
        | some prev =>
            out ++ [VOWEL2HIRA (lastVowel
              (((ctx.kakasiConvert [prev]).headD ⟨[], []⟩).hepburn))]
      else out ++ [ctx.kata2hiraChar a]) from ?_]
    · exact ih _
    · rw [kata2hiraStep]
      by_cases ha : a = 'ー'
      · rw [if_pos ((hdash a).2 ha), if_pos ha]
      · rw [if_neg fun h => ha ((hdash a).1 h), if_neg ha]

/-- Claim C7: provided the jaconv table fixes ー and maps nothing else to
ー (which holds of jaconv), `kata2hira_fix` realizes the claim's
description — character-by-character conversion, inner long-vowel marks
expanded through VOWEL2HIRA on the last vowel of the previous character's
romanization (default u), leading mark dropped — and its output contains
no literal ー. -/
theorem claim_C7_long_vowel (ctx : Ctx) (textKata : List Char)
    (hdash : ∀ c : Char, ctx.kata2hiraChar c = 'ー' ↔ c = 'ー') :
    kata2hira_fix ctx textKata = kata2hira_claim ctx textKata
    ∧ 'ー' ∉ kata2hira_fix ctx textKata := by
  constructor
  · exact kata2hira_fold_claim ctx textKata hdash []
  · exact kata2hira_fold_no_dash ctx _ [] (by simp)

/-- Witness for C7 at コーヒー under a context that romanizes コ as "ko". -/
theorem claim_C7_long_vowel_witness :
    kata2hira_fix ctxK (("コーヒー").data) = kata2hira_claim ctxK (("コーヒー").data)
    ∧ 'ー' ∉ kata2hira_fix ctxK (("コーヒー").data) :=
  claim_C7_long_vowel ctxK (("コーヒー").data) (fun _ => Iff.rfl)

/-- The strip count never exceeds either input length. -/
theorem okuriCount_le (ctx : Ctx) :
    ∀ s r : List Char, okuriCount ctx s r ≤ s.length ∧ okuriCount ctx s r ≤ r.length := by
  intro s
  induction s with
  | nil => intro r; simp [okuriCount]
  | cons a ss ih =>
    intro r
    cases r with
    | nil => simp [okuriCount]
    | cons b rs =>
      rw [okuriCount]
      split
      · have := ih rs
        constructor <;> simp <;> omega
      · simp

/-- Every position below the strip count is a matching kana pair. -/
theorem okuriCount_matches (ctx : Ctx) :
    ∀ (s r : List Char) (j : Nat), j < okuriCount ctx s r →
      ctx.isKana (s.getD j 'a') = true ∧ s.getD j 'a' = r.getD j 'a' := by
  intro s
  induction s with
  | nil => intro r j hj; simp [okuriCount] at hj
  | cons a ss ih =>
    intro r j hj
    cases r with
    | nil => simp [okuriCount] at hj
    | cons b rs =>
      rw [okuriCount] at hj
      split at hj
      · rename_i hcond
        simp only [Bool.and_eq_true, beq_iff_eq] at hcond
        cases j with
        | zero => exact ⟨hcond.1, hcond.2⟩
        | succ j =>
            have := ih rs j (by omega)
            simpa using this
      · omega

/-- Any run of matching kana pairs is at most the strip count: the loop
stops only at the first mismatch or non-kana position. -/
theorem okuriCount_maximal (ctx : Ctx) :
    ∀ (s r : List Char) (m : Nat), m ≤ s.length → m ≤ r.length →
      (∀ j, j < m → ctx.isKana (s.getD j 'a') = true ∧ s.getD j 'a' = r.getD j 'a') →
      m ≤ okuriCount ctx s r := by
  intro s
  induction s with
  | nil => intro r m hms hmr hmatch; simp at hms; omega
  | cons a ss ih =>
    intro r m hms hmr hmatch
    cases m with
    | zero => omega
    | succ m =>
      cases r with
      | nil => simp at hmr
      | cons b rs =>
        have h0 := hmatch 0 (by omega)
        simp only [List.getD_cons_zero] at h0
        rw [okuriCount, if_pos (by simp only [h0.1, Bool.true_and, beq_iff_eq]; exact h0.2)]
        have : m ≤ okuriCount ctx ss rs := by
          apply ih rs m (by simpa using hms) (by simpa using hmr)
          intro j hj
          have := hmatch (j + 1) (by omega)
          simpa using this
        omega

/-- Claim C3: the okurigana strip length of `inject_ruby` is exactly the
maximal trailing run of positions (counted from the end) where the
surface character is kana and equals the reading character, stopping at
the first mismatch or non-kana character; on surface 食べる with reading
たべる the produced annotation is core 食, ruby た, okurigana べる
appended literally after the annotation. -/
theorem claim_C3_okurigana (ctx : Ctx) (surf reading : List Char) :
    (okuriCount ctx surf.reverse reading.reverse ≤ surf.length
      ∧ okuriCount ctx surf.reverse reading.reverse ≤ reading.length)
    ∧ (∀ j, j < okuriCount ctx surf.reverse reading.reverse →
        ctx.isKana (surf.reverse.getD j 'a') = true
        ∧ surf.reverse.getD j 'a' = reading.reverse.getD j 'a')
    ∧ (∀ m, m ≤ surf.length → m ≤ reading.length →
        (∀ j, j < m → ctx.isKana (surf.reverse.getD j 'a') = true
          ∧ surf.reverse.getD j 'a' = reading.reverse.getD j 'a') →
        m ≤ okuriCount ctx surf.reverse reading.reverse)
    ∧ inject_ruby_ems ctxE (("食べる").data) 1 =
        [Emit.ruby (("食").data) (("た").data) (("べる").data)]
    ∧ inject_ruby ctxE (("食べる").data) 1 = ("<ruby>食<rt>た</rt></ruby>べる").data := by
  refine ⟨?_, ?_, ?_, by decide, by decide⟩
  · have := okuriCount_le ctx surf.reverse reading.reverse
    simpa using this
  · exact fun j hj => okuriCount_matches ctx surf.reverse reading.reverse j hj
  · intro m hms hmr hmatch
    exact okuriCount_maximal ctx surf.reverse reading.reverse m
      (by simpa using hms) (by simpa using hmr) hmatch

/-- Witness for C3: on 食べる with reading たべる the trailing run of
length 2 is all matching kana, so the strip count is at least 2, and the
rendered annotation is exactly the claimed one. -/
theorem claim_C3_okurigana_witness :
    2 ≤ okuriCount ctxE (("食べる").data).reverse (("たべる").data).reverse
    ∧ inject_ruby ctxE (("食べる").data) 1 = ("<ruby>食<rt>た</rt></ruby>べる").data :=
  ⟨(claim_C3_okurigana ctxE (("食べる").data) (("たべる").data)).2.2.1 2
      (by decide) (by decide) (by decide),
    (claim_C3_okurigana ctxE [] []).2.2.2.2⟩

/-- `rubyTok` with the branch condition in positive form and the core
reading named. -/
theorem rubyTok_eq (ctx : Ctx) (g : Nat) (tok : Token) :
    rubyTok ctx g tok =
      if tok.surface.any (fun c => (gradeSet ctx g).contains c) = true then
        (if (rubyCoreRead ctx tok).isEmpty then Emit.plain tok.surface
         else
           Emit.ruby
             (tok.surface.take (tok.surface.length -
               okuriCount ctx tok.surface.reverse (resolveReading ctx tok).reverse))
             (rubyCoreRead ctx tok)
             (tok.surface.drop (tok.surface.length -
               okuriCount ctx tok.surface.reverse (resolveReading ctx tok).reverse)))
      else Emit.plain tok.surface := by
  by_cases h : tok.surface.any (fun c => (gradeSet ctx g).contains c) = true
  · rw [if_pos h, rubyTok, if_neg (by simpa using h)]
    rfl
  · rw [if_neg h, rubyTok, if_pos (by simpa using h)]

/-- A prefix all of whose positions are kana consists of kana. -/
theorem take_kana_of_matches (ctx : Ctx) (s : List Char) :
    ∀ k, (∀ j, j < k → ctx.isKana (s.getD j 'a') = true) →
      ∀ c ∈ s.take k, ctx.isKana c = true := by
  induction s with
  | nil => intro k h c hc; simp at hc
  | cons a ss ih =>
    intro k h c hc
    cases k with
    | zero => simp at hc
    | succ k =>
      rw [List.take_succ_cons] at hc
      rcases List.mem_cons.1 hc with rfl | hmem
      · simpa using h 0 (by omega)
      · exact ih k (fun j hj => by simpa using h (j + 1) (by omega)) c hmem

/-- Claim C2, amended: provided the empty-ruby guard fires on no token of
the sanitized text (every token containing a grade-g character has a
non-empty computed core reading) and grade g's kanji set contains no
kana, every emission of `inject_ruby` on `sanitize(T, g)` keeps grade-g
characters out of the unannotated output (plain surfaces and okurigana
suffixes), and every emitted annotation has non-empty ruby text. -/
theorem claim_C2_ruby_coverage (ctx : Ctx) (text : List Char) (g : Nat)
    (hguard : ∀ tok ∈ ctx.tokenize (sanitize ctx text g),
      tok.surface.any (fun c => (gradeSet ctx g).contains c) = true →
      (rubyCoreRead ctx tok).isEmpty = false)
    (hkana : ∀ c ∈ gradeSet ctx g, ctx.isKana c = false) :
    ∀ e ∈ inject_ruby_ems ctx (sanitize ctx text g) g,
      (∀ c ∈ emitBare e, (gradeSet ctx g).contains c = false)
      ∧ (∀ core rt okuri, e = Emit.ruby core rt okuri → rt ≠ []) := by
  intro e he
  rcases List.mem_map.1 he with ⟨tok, htok, rfl⟩
  rw [rubyTok_eq]
  by_cases hany : tok.surface.any (fun c => (gradeSet ctx g).contains c) = true
  · rw [if_pos hany]
    have hcr : (rubyCoreRead ctx tok).isEmpty = false := hguard tok htok hany
    rw [if_neg (by simp [hcr])]
    constructor
    · intro c hc
      rw [emitBare] at hc
      -- hc : c ∈ surface.drop (len - k); show contains = false
      by_contra hcontains
      have hcontains2 : (gradeSet ctx g).contains c = true := by
        revert hcontains; cases (gradeSet ctx g).contains c <;> simp
      have hmemset : c ∈ gradeSet ctx g := by
        simpa using hcontains2
      have hnk : ctx.isKana c = false := hkana c hmemset
      -- but c is kana:
      have hk : ctx.isKana c = true := by
        set k := okuriCount ctx tok.surface.reverse (resolveReading ctx tok).reverse with hkdef
        have hrev : c ∈ tok.surface.reverse.take k := by
          rw [List.take_reverse]
          exact List.mem_reverse.2 hc
        apply take_kana_of_matches ctx tok.surface.reverse k ?_ c hrev
        intro j hj
        exact (okuriCount_matches ctx tok.surface.reverse
          (resolveReading ctx tok).reverse j hj).1
      rw [hk] at hnk
      simp at hnk
    · intro core rt okuri heq
      have : rt = rubyCoreRead ctx tok := by
        cases heq
        rfl
      rw [this]
      intro hnil
      rw [hnil] at hcr
      simp at hcr
  · rw [if_neg hany]
    constructor
    · intro c hc
      rw [emitBare] at hc
      by_contra hcontains
      have hcontains2 : (gradeSet ctx g).contains c = true := by
        revert hcontains; cases (gradeSet ctx g).contains c <;> simp
      exact hany (List.any_eq_true.2 ⟨c, hc, hcontains2⟩)
    · intro core rt okuri heq
      cases heq

/-- Counterexample to C2 as stated: with an anomalous reading べ for the
token 食べ, okurigana stripping consumes the whole reading, the
empty-ruby guard fires, and the grade-1 kanji 食 is emitted outside any
annotation. -/
theorem claim_C2_counterexample :
    inject_ruby_ems ctxD (sanitize ctxD (("食べ").data) 1) 1 = [Emit.plain (("食べ").data)]
    ∧ '食' ∈ gradeSet ctxD 1 := by decide

/-- Witness for the amended C2: on 食べ with reading たべ the annotation
ruby text た is non-empty and the okurigana べ is not a grade-1
character. -/
theorem claim_C2_ruby_coverage_witness :
    ("た").data ≠ [] ∧ (gradeSet ctxE 1).contains 'べ' = false := by
  have h := claim_C2_ruby_coverage ctxE (("食べ").data) 1 (by decide) (by decide)
    (Emit.ruby (("食").data) (("た").data) (("べ").data)) (by decide)
  exact ⟨h.2 _ _ _ rfl, h.1 'べ' (by decide)⟩

/-- Each piece contributes the same number of sections to the spine and
to the flattened HTML. -/
theorem epub_pdf_piece_len (ctx : Ctx) (i : Nat) (html : List Char)
    (img : Option (List Nat)) :
    (epub_pdf_piece ctx i html img).1.length = (epub_pdf_piece ctx i html img).2.length := by
  cases img with
  | none => rfl
  | some b =>
      rw [epub_pdf_piece]
      by_cases h : plain_len html < CHAR_THRESHOLD <;> simp [h]

/-- An imageless piece contributes the identical solo section to both
outputs. -/
theorem epub_pdf_piece_none (ctx : Ctx) (i : Nat) (html : List Char) :
    epub_pdf_piece ctx i html none = ([soloSection html], [soloSection html]) := rfl

/-- A short image-bearing piece contributes one side section to each
output; the spine copy is the flattened copy with the data URI rewritten
to the asset file name. -/
theorem epub_pdf_piece_some_short (ctx : Ctx) (i : Nat) (html : List Char)
    (b : List Nat) (h : plain_len html < CHAR_THRESHOLD) :
    epub_pdf_piece ctx i html (some b) =
      ([strReplace (as_data_uri ctx (ctx.halveBytes b)) (epubImgName i)
          (sideSectionMR html (as_data_uri ctx (ctx.halveBytes b)))],
       [sideSectionMR html (as_data_uri ctx (ctx.halveBytes b))]) := by
  rw [epub_pdf_piece]
  simp only [if_pos h]

/-- A long image-bearing piece contributes a verbatim-identical solo text
section to both outputs, followed by a picture section whose spine copy
rewrites the data URI to the asset file name. -/
theorem epub_pdf_piece_some_long (ctx : Ctx) (i : Nat) (html : List Char)
    (b : List Nat) (h : ¬ plain_len html < CHAR_THRESHOLD) :
    epub_pdf_piece ctx i html (some b) =
      ([soloSection html,
        strReplace (as_data_uri ctx (ctx.halveBytes b)) (epubImgName i)
          (pictureSection (as_data_uri ctx (ctx.halveBytes b)))],
       [soloSection html, pictureSection (as_data_uri ctx (ctx.halveBytes b))]) := by
  rw [epub_pdf_piece]
  simp only [if_neg h]

/-- Over any run, mixed pieces included, the assembly loop's two section
lists correspond position by position in order: each spine section is the
flattened section, identical or with the data URI rewritten. -/
theorem assembleFrom_forall₂ (ctx : Ctx) :
    ∀ (pieces : List (List Char × Option (List Nat))) (i : Nat),
      List.Forall₂ (SecMatches ctx)
        (assembleFrom ctx i pieces).1 (assembleFrom ctx i pieces).2 := by
  intro pieces
  induction pieces with
  | nil => intro i; exact List.Forall₂.nil
  | cons p rest ih =>
      intro i
      rw [assembleFrom]
      refine List.rel_append ?_ (ih (i + 1))
      rcases p with ⟨html, img⟩
      cases img with
      | none =>
          rw [epub_pdf_piece_none]
          exact List.Forall₂.cons (Or.inl rfl) List.Forall₂.nil
      | some b =>
          by_cases h : plain_len html < CHAR_THRESHOLD
          · rw [epub_pdf_piece_some_short ctx i html b h]
            exact List.Forall₂.cons (Or.inr ⟨i, b, rfl⟩) List.Forall₂.nil
          · rw [epub_pdf_piece_some_long ctx i html b h]
            exact List.Forall₂.cons (Or.inl rfl)
              (List.Forall₂.cons (Or.inr ⟨i, b, rfl⟩) List.Forall₂.nil)

/-- The assembly loop keeps the two section lists the same length. -/
theorem assembleFrom_len (ctx : Ctx) :
    ∀ (pieces : List (List Char × Option (List Nat))) (i : Nat),
      (assembleFrom ctx i pieces).1.length = (assembleFrom ctx i pieces).2.length := by
  intro pieces
  induction pieces with
  | nil => intro i; rfl
  | cons p rest ih =>
      intro i
      rw [assembleFrom]
      simp only [List.length_append, epub_pdf_piece_len, ih]

/-- With no images, the assembly loop builds identical section lists. -/
theorem assembleFrom_none (ctx : Ctx) :
    ∀ (pieces : List (List Char × Option (List Nat))) (i : Nat),
      (∀ p ∈ pieces, p.2 = none) →
      (assembleFrom ctx i pieces).1 = (assembleFrom ctx i pieces).2 := by
  intro pieces
  induction pieces with
  | nil => intro i _; rfl
  | cons p rest ih =>
      intro i hnone
      rw [assembleFrom]
      have hp : p.2 = none := hnone p (List.mem_cons.2 (Or.inl rfl))
      have hrest := ih (i + 1) fun q hq => hnone q (List.mem_cons.2 (Or.inr hq))
      simp only
      rw [hrest]
      congr 1
      rcases p with ⟨html, img⟩
      simp only at hp
      rw [hp, epub_pdf_piece_none]

/-- Claim C4, amended: the EPUB spine is the literal nav entry followed
by content sections that correspond one-to-one and in order with the
flattened-HTML sections (the lengths agree and every position satisfies
`SecMatches`, also in mixed runs); an imageless piece contributes a
verbatim-identical section to both, an image-bearing piece contributes a
side section (short text) or a verbatim-identical solo text section plus
a picture section (long text) whose spine copies are the flattened copies
with the inline data URI rewritten to the EPUB asset file name; and when
no piece carries an image the two content sequences are identical. -/
theorem claim_C4_section_identity (ctx : Ctx)
    (pieces : List (List Char × Option (List Nat))) :
    (assemble ctx pieces).1.head? = some (("nav").data)
    ∧ (assemble ctx pieces).1.length = (assemble ctx pieces).2.length + 1
    ∧ List.Forall₂ (SecMatches ctx)
        ((assemble ctx pieces).1.drop 1) (assemble ctx pieces).2
    ∧ (∀ (i : Nat) (html : List Char),
        epub_pdf_piece ctx i html none = ([soloSection html], [soloSection html]))
    ∧ (∀ (i : Nat) (html : List Char) (b : List Nat),
        (plain_len html < CHAR_THRESHOLD →
          epub_pdf_piece ctx i html (some b) =
            ([strReplace (as_data_uri ctx (ctx.halveBytes b)) (epubImgName i)
                (sideSectionMR html (as_data_uri ctx (ctx.halveBytes b)))],
             [sideSectionMR html (as_data_uri ctx (ctx.halveBytes b))]))
        ∧ (¬ plain_len html < CHAR_THRESHOLD →
          epub_pdf_piece ctx i html (some b) =
            ([soloSection html,
              strReplace (as_data_uri ctx (ctx.halveBytes b)) (epubImgName i)
                (pictureSection (as_data_uri ctx (ctx.halveBytes b)))],
             [soloSection html, pictureSection (as_data_uri ctx (ctx.halveBytes b))])))
    ∧ ((∀ p ∈ pieces, p.2 = none) →
        (assemble ctx pieces).1 = ("nav").data :: (assemble ctx pieces).2) := by
  refine ⟨rfl, ?_, ?_, ?_, ?_, ?_⟩
  · rw [assemble]
    simp only [List.length_cons]
    rw [assembleFrom_len]
  · exact assembleFrom_forall₂ ctx pieces 1
  · intro i html
    exact epub_pdf_piece_none ctx i html
  · intro i html b
    exact ⟨epub_pdf_piece_some_short ctx i html b, epub_pdf_piece_some_long ctx i html b⟩
  · intro hnone
    rw [assemble]
    simp only
    rw [assembleFrom_none ctx pieces 1 hnone]

/-- Counterexample to C4 as stated: a run with one short image-bearing
piece gives a spine that differs from the flattened-HTML sequence both as
a whole (extra nav entry) and content-wise after dropping nav (asset
file name vs. inline data URI in the side section). -/
theorem claim_C4_counterexample :
    ((assemble ctxM [(('x' :: []), some [65])]).1
      ≠ (assemble ctxM [(('x' :: []), some [65])]).2)
    ∧ ((assemble ctxM [(('x' :: []), some [65])]).1.drop 1
      ≠ (assemble ctxM [(('x' :: []), some [65])]).2) := by
  decide

/-- Witness for the amended C4: a short image-bearing piece contributes
the data-URI side section to the flattened output and its asset-name
rewrite to the spine, and a one-piece imageless run gives a spine that is
nav plus exactly the flattened sections. -/
theorem claim_C4_section_identity_witness :
    epub_pdf_piece ctxM 1 ('x' :: []) (some [65]) =
      ([strReplace (as_data_uri ctxM (ctxM.halveBytes [65])) (epubImgName 1)
          (sideSectionMR ('x' :: []) (as_data_uri ctxM (ctxM.halveBytes [65])))],
       [sideSectionMR ('x' :: []) (as_data_uri ctxM (ctxM.halveBytes [65]))])
    ∧ (assemble ctxM [(("hello").data, none)]).1 =
        ("nav").data :: (assemble ctxM [(("hello").data, none)]).2 :=
  ⟨((claim_C4_section_identity ctxM []).2.2.2.2.1 1 ('x' :: []) [65]).1 (by decide),
   (claim_C4_section_identity ctxM [(("hello").data, none)]).2.2.2.2.2 (by decide)⟩

end KanjiReader
